import Mathlib

/-!
Shallow embedding of the search engine of `view_find.cpp` (ImHex builtin
plugin): binary-pattern parsing, the search algorithms' scan loops, numeric
input parsing, the search-task result storage and the result-filter step.

Machine integers are modelled as `Nat` (or `Int` for signed values) with an
explicit `% 2 ^ w` wherever the C++ code truncates; byte streams are
`List Nat` of byte values, addressed relative to the search-region start;
fallible operations return `Option`.  Loops that move a cursor (rather than
structurally consuming their input) take an explicit fuel argument so that
every definition is structural and every concrete instance reduces by
`decide`/`rfl`; the fuel chosen by the top-level wrappers is proved (or used)
sufficient in the corresponding theorems.
-/

/-- `Occurrence::DecodeType` of view_find (as used throughout view_find.cpp). -/
inductive DecodeType
  | Binary
  | ASCII
  | UTF16
  | Unsigned
  | Signed
  | Float
  | Double
deriving DecidableEq

/-- The two `std::endian` values the code selects between; `little` is taken
as the native endianness of the host (x86-64), which the code compares
against. -/
inductive Endianness
  | little
  | big
deriving DecidableEq

/-- One found match: its region (start address relative to the search-region
start, and byte size) plus how to decode it for display. -/
structure Occurrence where
  address : Nat
  size : Nat
  decodeType : DecodeType
  endian : Endianness
deriving DecidableEq

/-- `ViewFind::BinaryPattern`: one byte position's constraint; a byte `b`
matches iff `(b & mask) == value`. -/
structure BinaryPattern where
  mask : Nat
  value : Nat
deriving DecidableEq

/-- `std::isspace` in the C locale, on a char. -/
def isSpaceChar (c : Char) : Bool := c.toNat == 32 || (9 ≤ c.toNat && c.toNat ≤ 13)

/-- `hex::hexCharToValue`: value of a hex digit character. -/
def hexCharToValue (c : Char) : Option Nat :=
  if 48 ≤ c.toNat && c.toNat ≤ 57 then some (c.toNat - 48)
  else if 97 ≤ c.toNat && c.toNat ≤ 102 then some (c.toNat - 87)
  else if 65 ≤ c.toNat && c.toNat ≤ 70 then some (c.toNat - 55)
  else none

/-- `std::isxdigit` in the C locale. -/
def isXDigitChar (c : Char) : Bool := (hexCharToValue c).isSome

/-- One nibble step of `ViewFind::parseBinaryPatternString`'s inner `for`:
shift mask and value left by 4 (truncating to 8 bits, as on `u8`), then for a
hex digit set the low mask nibble and or in the digit; for `?` leave the
nibble wildcarded; any other character is an error. -/
def nibbleStep (p : BinaryPattern) (c : Char) : Option BinaryPattern :=
  if isXDigitChar c then
    match hexCharToValue c with
    | some v => some ⟨(p.mask * 16 + 0x0F) % 256, (p.value * 16 + v) % 256⟩
    | none => none
  else if c = '?' then some ⟨(p.mask * 16) % 256, (p.value * 16) % 256⟩
  else none

/-- The `while (string.length() > 0)` loop of `ViewFind::parseBinaryPatternString`.
`none` models the early `return { }` on a malformed token; the final check of
the `inString` flag models the unbalanced-quote rejection.  Each iteration
consumes at least one character, so `fuel := length` suffices. -/
def parseBinaryPatternLoop : Nat → List Char → Bool → Option (List BinaryPattern)
  | _, [], inString => if inString then none else some []
  | 0, _ :: _, _ => none
  | fuel + 1, c :: rest, inString =>
    if c = '"' then parseBinaryPatternLoop fuel rest (!inString)
    else if inString then
      Option.map (fun l => ⟨0xFF, c.toNat % 256⟩ :: l) (parseBinaryPatternLoop fuel rest inString)
    else
      match rest with
      | c2 :: rest2 =>
        if c = '?' && c2 = '?' then
          Option.map (fun l => ⟨0x00, 0x00⟩ :: l) (parseBinaryPatternLoop fuel rest2 inString)
        else if isXDigitChar c || c = '?' then
          match nibbleStep ⟨0, 0⟩ c with
          | none => none
          | some p1 =>
            match nibbleStep p1 c2 with
            | none => none
            | some p2 =>
              Option.map (fun l => p2 :: l) (parseBinaryPatternLoop fuel rest2 inString)
        else if isSpaceChar c then parseBinaryPatternLoop fuel rest inString
        else none
      | [] =>
        if isSpaceChar c then parseBinaryPatternLoop fuel [] inString
        else none

/-- `ViewFind::parseBinaryPatternString`: inputs shorter than two characters
are rejected up front; any error inside the loop yields the empty list. -/
def parseBinaryPatternString (s : List Char) : List BinaryPattern :=
  if s.length < 2 then []
  else
    match parseBinaryPatternLoop s.length s false with
    | none => []
    | some r => r

/-- The binary-pattern tab sets `m_settingsValid = !settings.pattern.empty()`
(view_find.cpp line 696), so an empty parse blocks the search button. -/
def binaryPatternSettingsValid (input : List Char) : Bool :=
  !(parseBinaryPatternString input).isEmpty

/-- C4: `parseBinaryPattern` follows the stated grammar: plain hex pairs give
mask `0xFF` entries with the token's byte value; `??` gives mask 0, value 0;
a quoted literal gives one mask-`0xFF` entry per raw character; a mixed
hex/`?` token wildcards exactly the `?` nibble; the single character `"D"`
and an unbalanced quote both yield the empty (invalid) result. -/
theorem parseBinaryPatternString_grammar :
    parseBinaryPatternString ("DE AD BE EF".data) =
      [⟨0xFF, 0xDE⟩, ⟨0xFF, 0xAD⟩, ⟨0xFF, 0xBE⟩, ⟨0xFF, 0xEF⟩] ∧
    parseBinaryPatternString ("DE ?? BE EF".data) =
      [⟨0xFF, 0xDE⟩, ⟨0x00, 0x00⟩, ⟨0xFF, 0xBE⟩, ⟨0xFF, 0xEF⟩] ∧
    parseBinaryPatternString ("\"AB\"".data) = [⟨0xFF, 65⟩, ⟨0xFF, 66⟩] ∧
    parseBinaryPatternString ("D?".data) = [⟨0xF0, 0xD0⟩] ∧
    parseBinaryPatternString ("D".data) = [] ∧
    parseBinaryPatternString ("\"AB".data) = [] := by
  refine ⟨by decide, by decide, by decide, by decide, by decide, by decide⟩

/-- `H[i : i + len(P)] == P` as a byte-list slice test: the pattern occurs in
the haystack at index `i` (the bound conjunct makes a short final slice fail,
matching a byte-for-byte comparison of `len(P)` bytes). -/
def matchAtB (hay pat : List Nat) (i : Nat) : Bool :=
  decide (i + pat.length ≤ hay.length) && ((hay.drop i).take pat.length == pat)

/-- The semantics of `std::search` with a `boyer_moore_horspool_searcher` over
the reader positioned at `s`: the first index `i ≥ s` at which the pattern
occurs, if any.  `fuel ≥ hay.length + 1 - s` suffices. -/
def findFirstMatchFrom (hay pat : List Nat) : Nat → Nat → Option Nat
  | 0, _ => none
  | fuel + 1, s =>
    if hay.length < s + pat.length then none
    else if matchAtB hay pat s then some s
    else findFirstMatchFrom hay pat fuel (s + 1)

/-- The `while (true)` loop of `ViewFind::searchSequence`: find the next
occurrence from the reader's position, record it (with `bytes.size()` as the
region size) and re-seek to one byte past the occurrence address. -/
def seqLoop (hay pat : List Nat) : Nat → Nat → List (Nat × Nat)
  | 0, _ => []
  | fuel + 1, s =>
    match findFirstMatchFrom hay pat (hay.length + 1) s with
    | none => []
    | some i => (i, pat.length) :: seqLoop hay pat fuel (i + 1)

/-- `ViewFind::searchSequence` on the decoded pattern bytes: the empty pattern
returns no occurrences without scanning; otherwise the skip-search loop runs
from the region start.  Occurrences are `DecodeType::Binary` at native
endianness. -/
def searchSequence (hay pat : List Nat) : List Occurrence :=
  if pat.isEmpty then []
  else
    (seqLoop hay pat (hay.length + 1) 0).map
      (fun p => ⟨p.1, p.2, DecodeType.Binary, Endianness.little⟩)

theorem findFirstMatchFrom_some (hay pat : List Nat) :
    ∀ fuel s i, findFirstMatchFrom hay pat fuel s = some i →
      s ≤ i ∧ matchAtB hay pat i = true := by
  intro fuel
  induction fuel with
  | zero => intro s i h; simp [findFirstMatchFrom] at h
  | succ fuel ih =>
    intro s i h
    simp only [findFirstMatchFrom] at h
    by_cases h1 : hay.length < s + pat.length
    · simp [h1] at h
    · simp only [h1, if_false] at h
      by_cases h2 : matchAtB hay pat s = true
      · simp [h2] at h
        exact ⟨by omega, h ▸ h2⟩
      · simp only [h2, if_neg, Bool.not_eq_true] at h
        rcases ih (s + 1) i (by simpa using h) with ⟨hle, hm⟩
        exact ⟨by omega, hm⟩

theorem findFirstMatchFrom_first (hay pat : List Nat) :
    ∀ fuel s i, findFirstMatchFrom hay pat fuel s = some i →
      ∀ j, s ≤ j → j < i → matchAtB hay pat j = false := by
  intro fuel
  induction fuel with
  | zero => intro s i h; simp [findFirstMatchFrom] at h
  | succ fuel ih =>
    intro s i h j hsj hji
    simp only [findFirstMatchFrom] at h
    by_cases h1 : hay.length < s + pat.length
    · simp [h1] at h
    · simp only [h1, if_false] at h
      by_cases h2 : matchAtB hay pat s = true
      · simp [h2] at h
        omega
      · simp only [h2, if_neg, Bool.not_eq_true] at h
        rcases Nat.eq_or_lt_of_le hsj with rfl | hlt
        · simpa using h2
        · exact ih (s + 1) i (by simpa using h) j (by omega) hji

theorem findFirstMatchFrom_none (hay pat : List Nat) :
    ∀ fuel s, hay.length + 1 ≤ fuel + s →
      findFirstMatchFrom hay pat fuel s = none →
      ∀ j, s ≤ j → matchAtB hay pat j = false := by
  intro fuel
  induction fuel with
  | zero =>
    intro s hf _ j hj
    simp only [matchAtB]
    rw [decide_eq_false (by omega)]
    simp
  | succ fuel ih =>
    intro s hf h j hj
    simp only [findFirstMatchFrom] at h
    by_cases h1 : hay.length < s + pat.length
    · simp only [matchAtB]
      rw [decide_eq_false (by omega)]
      simp
    · simp only [h1, if_false] at h
      by_cases h2 : matchAtB hay pat s = true
      · simp [h2] at h
      · simp only [h2, if_neg, Bool.not_eq_true] at h
        rcases Nat.eq_or_lt_of_le hj with rfl | hlt
        · simpa using h2
        · exact ih (s + 1) (by omega) (by simpa using h) j (by omega)

theorem seqLoop_sound (hay pat : List Nat) :
    ∀ fuel s p, p ∈ seqLoop hay pat fuel s →
      p.2 = pat.length ∧ s ≤ p.1 ∧ matchAtB hay pat p.1 = true := by
  intro fuel
  induction fuel with
  | zero => intro s p h; simp [seqLoop] at h
  | succ fuel ih =>
    intro s p h
    simp only [seqLoop] at h
    cases hf : findFirstMatchFrom hay pat (hay.length + 1) s with
    | none => rw [hf] at h; simp at h
    | some i =>
      rw [hf] at h
      rcases findFirstMatchFrom_some hay pat _ _ _ hf with ⟨hsi, hmi⟩
      rcases List.mem_cons.mp h with rfl | htail
      · exact ⟨rfl, hsi, hmi⟩
      · rcases ih (i + 1) p htail with ⟨h1, h2, h3⟩
        exact ⟨h1, by omega, h3⟩

theorem seqLoop_complete (hay pat : List Nat) :
    ∀ fuel s j, hay.length + 1 ≤ fuel + s → s ≤ j → matchAtB hay pat j = true →
      (j, pat.length) ∈ seqLoop hay pat fuel s := by
  intro fuel
  induction fuel with
  | zero =>
    intro s j hf hsj hm
    exfalso
    simp only [matchAtB, Bool.and_eq_true, decide_eq_true_eq] at hm
    omega
  | succ fuel ih =>
    intro s j hf hsj hm
    simp only [seqLoop]
    cases hfind : findFirstMatchFrom hay pat (hay.length + 1) s with
    | none =>
      exfalso
      have := findFirstMatchFrom_none hay pat (hay.length + 1) s (by omega) hfind j hsj
      exact Bool.noConfusion (hm ▸ this)
    | some i =>
      rcases findFirstMatchFrom_some hay pat _ _ _ hfind with ⟨hsi, hmi⟩
      by_cases hji : j = i
      · subst hji; exact List.mem_cons_self _ _
      · have hij : i < j := by
          rcases Nat.lt_or_ge j i with hlt | hge
          · exfalso
            have := findFirstMatchFrom_first hay pat _ _ _ hfind j hsj hlt
            exact Bool.noConfusion (hm ▸ this)
          · omega
        have himax : i + pat.length ≤ hay.length := by
          simp only [matchAtB, Bool.and_eq_true, decide_eq_true_eq] at hmi
          exact hmi.1
        exact List.mem_cons_of_mem _ (ih (i + 1) j (by omega) (by omega) hm)

/-- C1 (amended: the pattern must be non-empty; the code returns the empty
result for an empty pattern): `searchSequence` emits an occurrence at exactly
the indices `i` where the pattern bytes occur at `i` in the haystack,
including overlapping occurrences, and every emitted occurrence spans exactly
`pat.length` bytes; `"aa"` over `"aaaa"` gives matches at 0, 1 and 2. -/
theorem searchSequence_finds_all_overlapping_matches :
    (∀ hay pat : List Nat, pat ≠ [] →
      (∀ o ∈ searchSequence hay pat, o.size = pat.length) ∧
      (∀ i : Nat,
        (∃ o ∈ searchSequence hay pat, o.address = i) ↔ matchAtB hay pat i = true)) ∧
    searchSequence [97, 97, 97, 97] [97, 97] =
      [⟨0, 2, DecodeType.Binary, Endianness.little⟩,
       ⟨1, 2, DecodeType.Binary, Endianness.little⟩,
       ⟨2, 2, DecodeType.Binary, Endianness.little⟩] := by
  constructor
  · intro hay pat hne
    have hemp : pat.isEmpty = false := by
      cases pat with
      | nil => exact absurd rfl hne
      | cons a l => rfl
    constructor
    · intro o ho
      simp only [searchSequence, hemp, Bool.false_eq_true, if_false, List.mem_map] at ho
      rcases ho with ⟨p, hp, rfl⟩
      exact (seqLoop_sound hay pat _ _ _ hp).1
    · intro i
      constructor
      · rintro ⟨o, ho, rfl⟩
        simp only [searchSequence, hemp, Bool.false_eq_true, if_false, List.mem_map] at ho
        rcases ho with ⟨p, hp, rfl⟩
        exact (seqLoop_sound hay pat _ _ _ hp).2.2
      · intro hm
        refine ⟨⟨i, pat.length, DecodeType.Binary, Endianness.little⟩, ?_, rfl⟩
        simp only [searchSequence, hemp, Bool.false_eq_true, if_false, List.mem_map]
        exact ⟨(i, pat.length),
          seqLoop_complete hay pat (hay.length + 1) 0 i (by omega) (Nat.zero_le i) hm, rfl⟩
  · decide

/-- Witness for C1's theorem at pattern `"aa"`, haystack `"aaaa"`, index 1. -/
theorem searchSequence_finds_all_overlapping_matches_witness :
    (∃ o ∈ searchSequence [97, 97, 97, 97] [97, 97], o.address = 1) :=
  ((searchSequence_finds_all_overlapping_matches.1 [97, 97, 97, 97] [97, 97]
    (by decide)).2 1).mpr (by decide)

/-- C1 counterexample: as literally stated the claim quantifies over every
pattern, but for the empty pattern every index matches (`H[i : i] == ""`)
while the code returns no occurrences at all. -/
theorem searchSequence_empty_pattern_counterexample :
    matchAtB [0] [] 0 = true ∧ searchSequence [0] [] = [] := by
  exact ⟨by decide, by decide⟩

/-- `SearchSettings::StringType`. -/
inductive StringType
  | ASCII
  | UTF16LE
  | UTF16BE
  | ASCII_UTF16LE
  | ASCII_UTF16BE
deriving DecidableEq

/-- `SearchSettings::Strings` as used by `ViewFind::searchStrings`. -/
structure StringsSettings where
  minLength : Nat
  nullTermination : Bool
  type : StringType
  lowerCaseLetters : Bool
  upperCaseLetters : Bool
  numbers : Bool
  underscores : Bool
  symbols : Bool
  spaces : Bool
  lineFeeds : Bool
deriving DecidableEq

/-- `std::islower` in the C locale, on a byte. -/
def isLowerByte (b : Nat) : Bool := 97 ≤ b && b ≤ 122

/-- `std::isupper` in the C locale, on a byte. -/
def isUpperByte (b : Nat) : Bool := 65 ≤ b && b ≤ 90

/-- `std::isdigit` in the C locale, on a byte. -/
def isDigitByte (b : Nat) : Bool := 48 ≤ b && b ≤ 57

/-- `std::isspace` in the C locale, on a byte. -/
def isSpaceByte (b : Nat) : Bool := b == 32 || (9 ≤ b && b ≤ 13)

/-- `std::ispunct` in the C locale, on a byte. -/
def isPunctByte (b : Nat) : Bool :=
  (33 ≤ b && b ≤ 47) || (58 ≤ b && b ≤ 64) || (91 ≤ b && b ≤ 96) || (123 ≤ b && b ≤ 126)

/-- The character-class test of `ViewFind::searchStrings` (view_find.cpp
lines 260-267), in the order the disjuncts appear there. -/
def validCharClasses (stg : StringsSettings) (b : Nat) : Bool :=
  (stg.lowerCaseLetters && isLowerByte b) ||
  (stg.upperCaseLetters && isUpperByte b) ||
  (stg.numbers && isDigitByte b) ||
  (stg.spaces && isSpaceByte b && b != 13 && b != 10) ||
  (stg.underscores && b == 95) ||
  (stg.symbols && isPunctByte b && !isSpaceByte b) ||
  (stg.lineFeeds && (b == 13 || b == 10))

/-- The full per-byte validity test of `ViewFind::searchStrings`: the class
test, overridden for the UTF-16 modes at alternate positions of the current
run (`countedCharacters % 2`) by the byte-is-zero test (lines 269-277). -/
def validCharStrings (stg : StringsSettings) (c b : Nat) : Bool :=
  match stg.type with
  | StringType.UTF16LE => if c % 2 == 1 then b == 0 else validCharClasses stg b
  | StringType.UTF16BE => if c % 2 == 0 then b == 0 else validCharClasses stg b
  | _ => validCharClasses stg b

/-- The scan loop of `ViewFind::searchStrings` (lines 258-295): `start` is
`startAddress`, `c` is `countedCharacters`, `endAddr` is the address of
`reader.end()` (one past the last byte of the region, per the spec's
exclusive-end Region convention).  A flush happens on an invalid byte or when
the just-counted byte is the last of the range; the run is recorded when it is
long enough and the flush byte passes the null-termination test. -/
def ssLoop (f : Nat → Nat → Bool) (minLen : Nat) (nullTerm : Bool) (endAddr : Nat) :
    List Nat → Nat → Nat → List (Nat × Nat)
  | [], _, _ => []
  | b :: rest, start, c =>
    let v := f c b
    let c1 := if v then c + 1 else c
    if !v || (start + c1 == endAddr) then
      (if minLen ≤ c1 && !(nullTerm && b != 0) then [(start, c1)] else []) ++
        ssLoop f minLen nullTerm endAddr rest (start + c1 + 1) 0
    else
      ssLoop f minLen nullTerm endAddr rest start c1

/-- The `(decodeType, endian)` pair selected at lines 243-252. -/
def decodeTypeOfStringType : StringType → DecodeType
  | StringType.ASCII => DecodeType.ASCII
  | StringType.UTF16LE => DecodeType.UTF16
  | StringType.UTF16BE => DecodeType.UTF16
  | _ => DecodeType.Binary

/-- Endianness selected at lines 243-252 (`native` is `little` here). -/
def endianOfStringType : StringType → Endianness
  | StringType.UTF16BE => Endianness.big
  | _ => Endianness.little

/-- One single-encoding pass of `ViewFind::searchStrings` over the region's
bytes (addresses relative to the region start). -/
def searchStringsSingle (stg : StringsSettings) (data : List Nat) : List Occurrence :=
  (ssLoop (validCharStrings stg) stg.minLength stg.nullTermination data.length data 0 0).map
    (fun p => ⟨p.1, p.2, decodeTypeOfStringType stg.type, endianOfStringType stg.type⟩)

/-- `ViewFind::searchStrings` (lines 214-298): the combined ASCII+UTF-16 modes
recurse (lines 219-237) as one ASCII pass followed by the matching UTF-16
pass, concatenated; the single modes run the scan loop once. -/
def searchStrings (stg : StringsSettings) (data : List Nat) : List Occurrence :=
  match stg.type with
  | StringType.ASCII_UTF16LE =>
    searchStringsSingle { stg with type := StringType.ASCII } data ++
      searchStringsSingle { stg with type := StringType.UTF16LE } data
  | StringType.ASCII_UTF16BE =>
    searchStringsSingle { stg with type := StringType.ASCII } data ++
      searchStringsSingle { stg with type := StringType.UTF16BE } data
  | _ => searchStringsSingle stg data

/-- Specification-side helper: the length of the greedy run of valid bytes at
the head of `data`, starting at in-run position `c`. -/
def takeRun (f : Nat → Nat → Bool) : List Nat → Nat → Nat
  | [], _ => 0
  | b :: rest, c => if f c b then takeRun f rest (c + 1) + 1 else 0

/-- Specification-side decomposition of a byte range into its maximal runs of
valid bytes, written from the spec's words: a run ends at the first invalid
byte or at the end of the range; each entry is (run start, run length, flush
byte), the flush byte being the terminating invalid byte, or the run's last
byte when the run is cut by the end of the range.  Zero-length runs (at
consecutive invalid bytes) are included; they are discarded by every
emission rule with a positive minimum length. -/
def stringRunsAuxF (f : Nat → Nat → Bool) : Nat → List Nat → Nat → Nat → List (Nat × Nat × Nat)
  | _, [], _, _ => []
  | 0, _ :: _, _, _ => []
  | fuel + 1, b :: rest, start, c =>
    if takeRun f (b :: rest) c = (b :: rest).length then
      [(start, c + takeRun f (b :: rest) c, (b :: rest).getD ((b :: rest).length - 1) 0)]
    else
      (start, c + takeRun f (b :: rest) c, (b :: rest).getD (takeRun f (b :: rest) c) 0) ::
        stringRunsAuxF f fuel ((b :: rest).drop (takeRun f (b :: rest) c + 1))
          (start + c + takeRun f (b :: rest) c + 1) 0

/-- The maximal valid-byte runs of a byte range (relative addresses). -/
def stringRuns (f : Nat → Nat → Bool) (data : List Nat) : List (Nat × Nat × Nat) :=
  stringRunsAuxF f (data.length + 1) data 0 0

/-- The emission rule the code applies to a flushed run: long enough, and
(when null termination is on) the byte that triggered the flush is 0x00. -/
def emitRun (minLen : Nat) (nullTerm : Bool) (r : Nat × Nat × Nat) : Option (Nat × Nat) :=
  if minLen ≤ r.2.1 && !(nullTerm && r.2.2 != 0) then some (r.1, r.2.1) else none


theorem stringRunsAuxF_shift (f : Nat → Nat → Bool) (g start c b : Nat) (rest : List Nat)
    (hv : f c b = true) (hne : rest ≠ []) :
    stringRunsAuxF f (g + 1) (b :: rest) start c = stringRunsAuxF f (g + 1) rest start (c + 1) := by
  cases rest with
  | nil => exact absurd rfl hne
  | cons b2 rest2 =>
    have htake : takeRun f (b :: b2 :: rest2) c = takeRun f (b2 :: rest2) (c + 1) + 1 := by
      simp [takeRun, hv]
    by_cases hr : takeRun f (b2 :: rest2) (c + 1) = (b2 :: rest2).length
    · have hL : takeRun f (b :: b2 :: rest2) c = (b :: b2 :: rest2).length := by
        rw [htake, hr]; simp
      simp only [stringRunsAuxF]
      rw [if_pos hL, if_pos hr, htake]
      simp only [List.length_cons, Nat.add_sub_cancel, List.getD_cons_succ,
        List.cons.injEq, Prod.mk.injEq, and_true, true_and]
      omega
    · have hL : ¬ takeRun f (b :: b2 :: rest2) c = (b :: b2 :: rest2).length := by
        rw [htake]
        simp only [List.length_cons] at hr ⊢
        omega
      simp only [stringRunsAuxF]
      rw [if_neg hL, if_neg hr, htake]
      simp only [List.drop_succ_cons, List.getD_cons_succ]
      have e1 : c + (takeRun f (b2 :: rest2) (c + 1) + 1) =
          c + 1 + takeRun f (b2 :: rest2) (c + 1) := by omega
      have e2 : start + c + (takeRun f (b2 :: rest2) (c + 1) + 1) + 1 =
          start + (c + 1) + takeRun f (b2 :: rest2) (c + 1) + 1 := by omega
      rw [e1, e2]

theorem filterMap_emitRun_cons (mL : Nat) (nt : Bool) (s l fb : Nat) (t : List (Nat × Nat × Nat)) :
    List.filterMap (emitRun mL nt) ((s, l, fb) :: t) =
      (if mL ≤ l && !(nt && fb != 0) then [(s, l)] else []) ++
        List.filterMap (emitRun mL nt) t := by
  simp only [List.filterMap_cons, emitRun]
  by_cases h : (mL ≤ l && !(nt && fb != 0)) = true
  · rw [if_pos h, if_pos h]
    rfl
  · rw [if_neg h, if_neg h]
    rfl

theorem ssLoop_eq_runs (f : Nat → Nat → Bool) (mL : Nat) (nt : Bool) :
    ∀ (data : List Nat) (start c fuel N : Nat),
      data.length < fuel → start + c + data.length = N →
      ssLoop f mL nt N data start c =
        List.filterMap (emitRun mL nt) (stringRunsAuxF f fuel data start c) := by
  intro data
  induction data with
  | nil =>
    intro start c fuel N hf hN
    simp [ssLoop, stringRunsAuxF]
  | cons b rest ih =>
    intro start c fuel N hf hN
    simp only [List.length_cons] at hf hN
    cases fuel with
    | zero => omega
    | succ g =>
      cases hv : f c b with
      | false =>
        have ht : takeRun f (b :: rest) c = 0 := by simp [takeRun, hv]
        have hc : ¬ takeRun f (b :: rest) c = (b :: rest).length := by
          rw [ht]; simp
        have htail := ih (start + c + 1) 0 g N (by omega) (by omega)
        simp only [ssLoop, hv, Bool.not_false, Bool.true_or, Bool.false_eq_true, if_false,
          reduceIte]
        rw [htail]
        simp only [stringRunsAuxF]
        rw [if_neg hc, ht]
        simp only [Nat.add_zero, Nat.zero_add, List.getD_cons_zero, List.drop_succ_cons,
          List.drop_zero]
        rw [filterMap_emitRun_cons]
      | true =>
        cases rest with
        | nil =>
          simp only [List.length_nil] at hN
          have hN1 : start + (c + 1) = N := by omega
          have ht : takeRun f [b] c = 1 := by simp [takeRun, hv]
          have hc : takeRun f [b] c = ([b] : List Nat).length := by rw [ht]; rfl
          simp only [ssLoop, hv, reduceIte, Bool.not_true, Bool.false_or, hN1,
            beq_self_eq_true, if_true, List.append_nil]
          simp only [stringRunsAuxF]
          rw [if_pos hc, ht]
          simp only [List.length_cons, List.length_nil, Nat.zero_add, Nat.sub_self,
            List.getD_cons_zero]
          rw [filterMap_emitRun_cons]
          simp
        | cons b2 rest2 =>
          have hflush : (start + (c + 1) == N) = false := by
            simp only [List.length_cons] at hN
            simp only [beq_eq_false_iff_ne, ne_eq]
            omega
          rw [stringRunsAuxF_shift f g start c b (b2 :: rest2) hv (by simp)]
          rw [← ih start (c + 1) (g + 1) N
            (by simp only [List.length_cons] at hf ⊢; omega)
            (by simp only [List.length_cons] at hN ⊢; omega)]
          simp only [ssLoop, hv, reduceIte, Bool.not_true, Bool.false_or, hflush,
            Bool.false_eq_true, if_false]

/-- ASCII string-search settings with every character class enabled and no
null-termination requirement, at the given minimum length. -/
def exampleStringsSettings (minLen : Nat) : StringsSettings :=
  ⟨minLen, false, StringType.ASCII, true, true, true, true, true, true, true⟩

/-- UTF-16LE string-search settings with every character class enabled and
null termination REQUIRED, minimum length 2. -/
def exampleUtf16Settings : StringsSettings :=
  ⟨2, true, StringType.UTF16LE, true, true, true, true, true, true, true⟩

/-- C7 (amended: when null termination is on, a run is emitted iff the byte
that triggered the flush is 0x00 — for a run stopped by an invalid byte that
is the byte immediately following the run, but for a run cut by the end of
the range it is the run's own last byte, which in the UTF-16 modes can itself
be 0x00): in a single-encoding mode the emitted occurrences are exactly the
maximal valid-byte runs, filtered by minimum length and the flush-byte
null-termination test; over ASCII bytes "ab\x01cd" with minLength 2 the
occurrences are "ab" and "cd", and with minLength 3 there are none. -/
theorem searchStrings_maximal_runs_characterization :
    (∀ (stg : StringsSettings) (data : List Nat),
      stg.type = StringType.ASCII ∨ stg.type = StringType.UTF16LE ∨
        stg.type = StringType.UTF16BE →
      (searchStrings stg data).map (fun o => (o.address, o.size)) =
        List.filterMap (emitRun stg.minLength stg.nullTermination)
          (stringRuns (validCharStrings stg) data)) ∧
    searchStrings (exampleStringsSettings 2) [97, 98, 1, 99, 100] =
      [⟨0, 2, DecodeType.ASCII, Endianness.little⟩,
       ⟨3, 2, DecodeType.ASCII, Endianness.little⟩] ∧
    searchStrings (exampleStringsSettings 3) [97, 98, 1, 99, 100] = [] := by
  refine ⟨?_, by decide, by decide⟩
  intro stg data htype
  have hsingle : searchStrings stg data = searchStringsSingle stg data := by
    rcases htype with h | h | h <;> simp [searchStrings, h]
  rw [hsingle, searchStringsSingle, List.map_map]
  have hmap : ((fun (o : Occurrence) => (o.address, o.size)) ∘
      (fun (p : Nat × Nat) =>
        (⟨p.1, p.2, decodeTypeOfStringType stg.type, endianOfStringType stg.type⟩ :
          Occurrence))) = id := by
    funext p
    rfl
  rw [hmap, List.map_id]
  exact ssLoop_eq_runs (validCharStrings stg) stg.minLength stg.nullTermination data 0 0
    (data.length + 1) data.length (by omega) (by omega)

/-- Witness for C7's theorem: the characterization applied to the ASCII
example settings over "ab\x01cd". -/
theorem searchStrings_maximal_runs_characterization_witness :
    (searchStrings (exampleStringsSettings 2) [97, 98, 1, 99, 100]).map
        (fun o => (o.address, o.size)) =
      List.filterMap (emitRun (exampleStringsSettings 2).minLength
          (exampleStringsSettings 2).nullTermination)
        (stringRuns (validCharStrings (exampleStringsSettings 2)) [97, 98, 1, 99, 100]) :=
  searchStrings_maximal_runs_characterization.1 (exampleStringsSettings 2)
    [97, 98, 1, 99, 100] (Or.inl rfl)

/-- C7 counterexample: the claim as stated says that with `nullTermination`
set a run is only emitted when immediately followed by a 0x00 byte; but in
UTF-16LE mode the run `41 00` reaching the end of the range is emitted (the
flush test looks at the run's own last byte, 0x00) even though no byte at all
follows it. -/
theorem searchStrings_nullTermination_end_of_range_counterexample :
    exampleUtf16Settings.nullTermination = true ∧
    searchStrings exampleUtf16Settings [0x41, 0x00] =
      [⟨0, 2, DecodeType.UTF16, Endianness.little⟩] ∧
    ([0x41, 0x00] : List Nat).get? (0 + 2) = none := by
  exact ⟨by decide, by decide, by decide⟩

/-- Decimal digit value of a character. -/
def decDigitVal (c : Char) : Option Nat :=
  if 48 ≤ c.toNat && c.toNat ≤ 57 then some (c.toNat - 48) else none

/-- Octal digit value of a character. -/
def octDigitVal (c : Char) : Option Nat :=
  if 48 ≤ c.toNat && c.toNat ≤ 55 then some (c.toNat - 48) else none

/-- Leading-whitespace skipping of `strtoll`/`strtoull`: the rest of the
string and the number of characters skipped. -/
def skipWs : List Char → List Char × Nat
  | [] => ([], 0)
  | c :: rest =>
    if isSpaceChar c then
      let r := skipWs rest
      (r.1, r.2 + 1)
    else (c :: rest, 0)

/-- Maximal run of digits under the digit-value function `dv`, accumulated in
the given base on top of `acc`: final value and digit count. -/
def takeDigits (dv : Char → Option Nat) (base : Nat) : List Char → Nat → Nat × Nat
  | [], acc => (acc, 0)
  | c :: rest, acc =>
    match dv c with
    | some d =>
      let r := takeDigits dv base rest (acc * base + d)
      (r.1, r.2 + 1)
    | none => (acc, 0)

/-- The optional sign of a `strtoll`/`strtoull` subject sequence:
(negative?, characters consumed, rest). -/
def strtoSign : List Char → Bool × Nat × List Char
  | '-' :: r => (true, 1, r)
  | '+' :: r => (false, 1, r)
  | r => (false, 0, r)

/-- The base-0 subject sequence of C `strtoll`/`strtoull` (what `std::stoll` /
`std::stoull` with base 0 parse): optional whitespace, optional sign, then a
`0x`/`0X` hex literal, a leading-`0` octal literal, or a decimal literal; a
`0x` prefix with no hex digit after it falls back to the plain `0`.  Returns
(magnitude, negative?, characters consumed) or `none` when no digits are
found (`std::invalid_argument`). -/
def strtoSubject (s : List Char) : Option (Nat × Bool × Nat) :=
  let w := skipWs s
  let sg := strtoSign w.1
  let neg := sg.1
  let pre := w.2 + sg.2.1
  match sg.2.2 with
  | '0' :: rest2 =>
    match rest2 with
    | c :: r =>
      if c = 'x' || c = 'X' then
        match r with
        | d :: _ =>
          if (hexCharToValue d).isSome then
            let td := takeDigits hexCharToValue 16 r 0
            some (td.1, neg, pre + 2 + td.2)
          else some (0, neg, pre + 1)
        | [] => some (0, neg, pre + 1)
      else
        let td := takeDigits octDigitVal 8 rest2 0
        some (td.1, neg, pre + 1 + td.2)
    | [] => some (0, neg, pre + 1)
  | rest =>
    match rest with
    | c :: _ =>
      if (decDigitVal c).isSome then
        let td := takeDigits decDigitVal 10 rest 0
        some (td.1, neg, pre + td.2)
      else none
    | [] => none

/-- `std::stoull(string, &processed, 0)`: magnitudes above `ULLONG_MAX` throw
(`none`); a negative sign wraps modulo `2^64`.  Returns (value, processed). -/
def stoullModel (s : List Char) : Option (Nat × Nat) :=
  match strtoSubject s with
  | none => none
  | some (mag, neg, processed) =>
    if 2 ^ 64 - 1 < mag then none
    else some ((if neg then (2 ^ 64 - mag % 2 ^ 64) % 2 ^ 64 else mag), processed)

/-- `std::stoll(string, &processed, 0)`: values outside the `long long` range
throw (`none`).  Returns (value, processed). -/
def stollModel (s : List Char) : Option (Int × Nat) :=
  match strtoSubject s with
  | none => none
  | some (mag, neg, processed) =>
    if neg then
      if 2 ^ 63 < mag then none else some (-(mag : Int), processed)
    else
      if 2 ^ 63 - 1 < mag then none else some ((mag : Int), processed)

/-- `SearchSettings::Value::Type`, integer variants.  The `F32`/`F64` variants
of the source dispatch to `std::stod` over IEEE floats, which this embedding
does not model; every claim checked here concerns the integer variants. -/
inductive ValueType
  | U8
  | U16
  | U32
  | U64
  | I8
  | I16
  | I32
  | I64
deriving DecidableEq

/-- `sizeof(Type)` for each variant. -/
def typeWidth : ValueType → Nat
  | ValueType.U8 => 1
  | ValueType.U16 => 2
  | ValueType.U32 => 4
  | ValueType.U64 => 8
  | ValueType.I8 => 1
  | ValueType.I16 => 2
  | ValueType.I32 => 4
  | ValueType.I64 => 8

/-- Whether the variant uses the unsigned (`u64` storage) template instance. -/
def isUnsignedType : ValueType → Bool
  | ValueType.U8 | ValueType.U16 | ValueType.U32 | ValueType.U64 => true
  | _ => false

/-- The `std::variant<u64, i64, float, double>` payload, integer alternatives. -/
inductive NumVal
  | u (v : Nat)
  | i (v : Int)
deriving DecidableEq

/-- `parseNumericValue<Type, u64>`: parse with `std::stoull`, require the
whole input consumed, require the value within `Type`'s range (the lower
bound 0 always holds for the unsigned storage), return value and
`sizeof(Type)`. -/
def parseU (tmax width : Nat) (s : List Char) : Option (NumVal × Nat) :=
  match stoullModel s with
  | none => none
  | some (v, processed) =>
    if processed ≠ s.length then none
    else if tmax < v then none
    else some (NumVal.u v, width)

/-- `parseNumericValue<Type, i64>`: parse with `std::stoll`, require the whole
input consumed, require the value within `Type`'s range, return value and
`sizeof(Type)`. -/
def parseI (tmin tmax : Int) (width : Nat) (s : List Char) : Option (NumVal × Nat) :=
  match stollModel s with
  | none => none
  | some (v, processed) =>
    if processed ≠ s.length then none
    else if v < tmin || tmax < v then none
    else some (NumVal.i v, width)

/-- `ViewFind::parseNumericValueInput` (view_find.cpp lines 182-198),
integer variants. -/
def parseNumericValueInput (t : ValueType) (s : List Char) : Option (NumVal × Nat) :=
  match t with
  | ValueType.U8 => parseU (2 ^ 8 - 1) 1 s
  | ValueType.U16 => parseU (2 ^ 16 - 1) 2 s
  | ValueType.U32 => parseU (2 ^ 32 - 1) 4 s
  | ValueType.U64 => parseU (2 ^ 64 - 1) 8 s
  | ValueType.I8 => parseI (-(2 ^ 7)) (2 ^ 7 - 1) 1 s
  | ValueType.I16 => parseI (-(2 ^ 15)) (2 ^ 15 - 1) 2 s
  | ValueType.I32 => parseI (-(2 ^ 31)) (2 ^ 31 - 1) 4 s
  | ValueType.I64 => parseI (-(2 ^ 63)) (2 ^ 63 - 1) 8 s

/-- The number of characters the underlying `stoXll` call consumed, when it
succeeded at all. -/
def numericProcessedLen (t : ValueType) (s : List Char) : Option Nat :=
  if isUnsignedType t then Option.map (fun r => r.2) (stoullModel s)
  else Option.map (fun r => r.2) (stollModel s)

/-- The parsed value lies within the target type's range. -/
def numValInRange (t : ValueType) (nv : NumVal) : Bool :=
  match nv with
  | NumVal.u v => isUnsignedType t && decide (v ≤ 2 ^ (8 * typeWidth t) - 1)
  | NumVal.i v =>
    !isUnsignedType t &&
      decide (-((2 : Int) ^ (8 * typeWidth t - 1)) ≤ v ∧
        v ≤ (2 : Int) ^ (8 * typeWidth t - 1) - 1)

theorem parseU_some (tmax width : Nat) (s : List Char) (r : NumVal × Nat)
    (h : parseU tmax width s = some r) :
    r.2 = width ∧ ∃ v, r.1 = NumVal.u v ∧ v ≤ tmax ∧ stoullModel s = some (v, s.length) := by
  unfold parseU at h
  cases hm : stoullModel s with
  | none => rw [hm] at h; cases h
  | some p =>
    rw [hm] at h
    obtain ⟨v, processed⟩ := p
    dsimp only [] at h
    by_cases h1 : processed = s.length
    · rw [if_neg (by simpa using h1)] at h
      by_cases h2 : tmax < v
      · rw [if_pos h2] at h; cases h
      · rw [if_neg h2] at h
        cases h
        exact ⟨rfl, v, rfl, by omega, by rw [h1]⟩
    · rw [if_pos (by simpa using h1)] at h; cases h

theorem parseI_some (tmin tmax : Int) (width : Nat) (s : List Char) (r : NumVal × Nat)
    (h : parseI tmin tmax width s = some r) :
    r.2 = width ∧
      ∃ v, r.1 = NumVal.i v ∧ tmin ≤ v ∧ v ≤ tmax ∧ stollModel s = some (v, s.length) := by
  unfold parseI at h
  cases hm : stollModel s with
  | none => rw [hm] at h; cases h
  | some p =>
    rw [hm] at h
    obtain ⟨v, processed⟩ := p
    dsimp only [] at h
    by_cases h1 : processed = s.length
    · rw [if_neg (by simpa using h1)] at h
      by_cases h2 : (v < tmin || tmax < v) = true
      · rw [if_pos h2] at h; cases h
      · rw [if_neg h2] at h
        cases h
        simp only [Bool.or_eq_true, decide_eq_true_eq, not_or, not_lt] at h2
        exact ⟨rfl, v, rfl, h2.1, h2.2, by rw [h1]⟩
    · rw [if_pos (by simpa using h1)] at h; cases h

/-- C8: `parseNumericValue` (integer variants; the float variants go through
`std::stod` and are outside this embedding) succeeds only when the whole
input is consumed, only when the value fits the target type's range, accepts
base-prefixed integers (`0x...` hex and leading-`0` octal), and on success
returns the target type's byte width; `"256"` as U8 fails while `"0xFF"` as
U8 succeeds with value 255 and width 1. -/
theorem parseNumericValueInput_contract :
    (∀ (t : ValueType) (s : List Char) (r : NumVal × Nat),
      parseNumericValueInput t s = some r → r.2 = typeWidth t) ∧
    (∀ (t : ValueType) (s : List Char) (r : NumVal × Nat),
      parseNumericValueInput t s = some r → numericProcessedLen t s = some s.length) ∧
    (∀ (t : ValueType) (s : List Char) (r : NumVal × Nat),
      parseNumericValueInput t s = some r → numValInRange t r.1 = true) ∧
    parseNumericValueInput ValueType.U8 ("256".data) = none ∧
    parseNumericValueInput ValueType.U8 ("0xFF".data) = some (NumVal.u 255, 1) ∧
    parseNumericValueInput ValueType.U8 ("010".data) = some (NumVal.u 8, 1) ∧
    parseNumericValueInput ValueType.U32 ("123x".data) = none := by
  refine ⟨?_, ?_, ?_, by decide, by decide, by decide, by decide⟩
  · intro t s r h
    cases t <;> simp only [parseNumericValueInput] at h
    · exact (parseU_some _ _ _ _ h).1
    · exact (parseU_some _ _ _ _ h).1
    · exact (parseU_some _ _ _ _ h).1
    · exact (parseU_some _ _ _ _ h).1
    · exact (parseI_some _ _ _ _ _ h).1
    · exact (parseI_some _ _ _ _ _ h).1
    · exact (parseI_some _ _ _ _ _ h).1
    · exact (parseI_some _ _ _ _ _ h).1
  · intro t s r h
    cases t <;> simp only [parseNumericValueInput] at h
    · rcases parseU_some _ _ _ _ h with ⟨-, v, -, -, hs⟩
      simp [numericProcessedLen, isUnsignedType, hs]
    · rcases parseU_some _ _ _ _ h with ⟨-, v, -, -, hs⟩
      simp [numericProcessedLen, isUnsignedType, hs]
    · rcases parseU_some _ _ _ _ h with ⟨-, v, -, -, hs⟩
      simp [numericProcessedLen, isUnsignedType, hs]
    · rcases parseU_some _ _ _ _ h with ⟨-, v, -, -, hs⟩
      simp [numericProcessedLen, isUnsignedType, hs]
    · rcases parseI_some _ _ _ _ _ h with ⟨-, v, -, -, -, hs⟩
      simp [numericProcessedLen, isUnsignedType, hs]
    · rcases parseI_some _ _ _ _ _ h with ⟨-, v, -, -, -, hs⟩
      simp [numericProcessedLen, isUnsignedType, hs]
    · rcases parseI_some _ _ _ _ _ h with ⟨-, v, -, -, -, hs⟩
      simp [numericProcessedLen, isUnsignedType, hs]
    · rcases parseI_some _ _ _ _ _ h with ⟨-, v, -, -, -, hs⟩
      simp [numericProcessedLen, isUnsignedType, hs]
  · intro t s r h
    cases t <;> simp only [parseNumericValueInput] at h
    · rcases parseU_some _ _ _ _ h with ⟨-, v, hv, hle, -⟩
      rw [hv]
      simp only [numValInRange, isUnsignedType, typeWidth, Bool.true_and, decide_eq_true_eq]
      omega
    · rcases parseU_some _ _ _ _ h with ⟨-, v, hv, hle, -⟩
      rw [hv]
      simp only [numValInRange, isUnsignedType, typeWidth, Bool.true_and, decide_eq_true_eq]
      omega
    · rcases parseU_some _ _ _ _ h with ⟨-, v, hv, hle, -⟩
      rw [hv]
      simp only [numValInRange, isUnsignedType, typeWidth, Bool.true_and, decide_eq_true_eq]
      omega
    · rcases parseU_some _ _ _ _ h with ⟨-, v, hv, hle, -⟩
      rw [hv]
      simp only [numValInRange, isUnsignedType, typeWidth, Bool.true_and, decide_eq_true_eq]
      omega
    · rcases parseI_some _ _ _ _ _ h with ⟨-, v, hv, hlo, hhi, -⟩
      rw [hv]
      simp only [numValInRange, isUnsignedType, typeWidth, Bool.not_false, Bool.true_and,
        decide_eq_true_eq]
      norm_num
      omega
    · rcases parseI_some _ _ _ _ _ h with ⟨-, v, hv, hlo, hhi, -⟩
      rw [hv]
      simp only [numValInRange, isUnsignedType, typeWidth, Bool.not_false, Bool.true_and,
        decide_eq_true_eq]
      norm_num
      omega
    · rcases parseI_some _ _ _ _ _ h with ⟨-, v, hv, hlo, hhi, -⟩
      rw [hv]
      simp only [numValInRange, isUnsignedType, typeWidth, Bool.not_false, Bool.true_and,
        decide_eq_true_eq]
      norm_num
      omega
    · rcases parseI_some _ _ _ _ _ h with ⟨-, v, hv, hlo, hhi, -⟩
      rw [hv]
      simp only [numValInRange, isUnsignedType, typeWidth, Bool.not_false, Bool.true_and,
        decide_eq_true_eq]
      norm_num
      omega

/-- Witness for C8's theorem: the width clause applied at `"0xFF"`, U8. -/
theorem parseNumericValueInput_contract_witness :
    ((NumVal.u 255, 1) : NumVal × Nat).2 = typeWidth ValueType.U8 :=
  parseNumericValueInput_contract.1 ValueType.U8 ("0xFF".data) (NumVal.u 255, 1) (by decide)

/-- Reverse the byte order of a `w`-byte value (what `hex::changeEndianess`
does when the requested endianness differs from native). -/
def byteSwap : Nat → Nat → Nat
  | 0, _ => 0
  | w + 1, v => (v % 256) * 256 ^ w + byteSwap w (v / 256)

/-- The `Occurrence::DecodeType` selected for a value hit
(view_find.cpp lines 441-463). -/
def valueDecodeType (t : ValueType) : DecodeType :=
  if isUnsignedType t then DecodeType.Unsigned else DecodeType.Signed

/-- The in-range test the `std::visit` lambda performs on one window
(lines 426-438): the window's `size` bytes are copied into the storage type
(zero-extended — note the source performs no sign extension for the signed
types) and compared inclusively against the parsed bounds. -/
def windowInRange (minv maxv : NumVal) (window : Nat) : Bool :=
  match minv, maxv with
  | NumVal.u a, NumVal.u b => a ≤ window && window ≤ b
  | NumVal.i a, NumVal.i b => a ≤ (window : Int) && (window : Int) ≤ b
  | _, _ => false

/-- The byte loop of `ViewFind::searchValue` (lines 414-473): `acc` is the
rolling `u64` accumulator `bytes` (big-end first), `vb` is `validBytes`,
`addr` the running address.  The window test only runs once `validBytes`
has already reached `size`, i.e. from the (w+1)-th byte of the range on;
the masked accumulator is written back, as in the source. -/
def svLoop (w : Nat) (isLittle : Bool) (check : Nat → Bool) :
    List Nat → Nat → Nat → Nat → List (Nat × Nat)
  | [], _, _, _ => []
  | b :: rest, acc, vb, addr =>
    let acc1 := (acc * 256 + b % 256) % 2 ^ 64
    if vb == w then
      let accM := acc1 % 2 ^ (8 * w)
      let value := if isLittle then byteSwap w accM else accM
      (if check value then [(addr - (w - 1), w)] else []) ++
        svLoop w isLittle check rest accM vb (addr + 1)
    else
      svLoop w isLittle check rest acc1 (vb + 1) (addr + 1)

/-- `ViewFind::searchValue` (lines 399-476): parse both bounds with
`parseNumericValueInput`; if either fails or the widths differ, return the
empty list; otherwise run the sliding-window loop over the region's bytes
(addresses relative to the region start). -/
def searchValue (data : List Nat) (inputMin inputMax : List Char) (t : ValueType)
    (endianLittle : Bool) : List Occurrence :=
  match parseNumericValueInput t inputMin, parseNumericValueInput t inputMax with
  | some (minv, wmin), some (maxv, wmax) =>
    if wmin ≠ wmax then []
    else
      (svLoop wmin endianLittle (windowInRange minv maxv) data 0 0 0).map
        (fun p => ⟨p.1, p.2, valueDecodeType t,
          if endianLittle then Endianness.little else Endianness.big⟩)
  | _, _ => []

/-- C2 evidence (code bug): the spec's own example — bytes 00 0A 14, type U8,
range [5, 20], little-endian — does yield occurrences at addresses 1 and 2
only; but the first window of a range is never evaluated at all: over the
single byte 0A, whose value 10 lies within [5, 20], `searchValue` emits
nothing, because the `validBytes` warm-up consumes the first `width` bytes
without running the window test.  The claim (and spec) require a window at
every byte offset, hence an occurrence at relative address 0 here. -/
theorem searchValue_first_window_never_evaluated :
    searchValue [0x0A] ("5".data) ("20".data) ValueType.U8 true = [] ∧
    windowInRange (NumVal.u 5) (NumVal.u 20) 0x0A = true ∧
    searchValue [0x00, 0x0A, 0x14] ("5".data) ("20".data) ValueType.U8 true =
      [⟨1, 1, DecodeType.Unsigned, Endianness.little⟩,
       ⟨2, 1, DecodeType.Unsigned, Endianness.little⟩] := by
  exact ⟨by decide, by decide, by decide⟩

/-- `(byte & pattern[m].mask) == pattern[m].value` (view_find.cpp line 379). -/
def bpMatches (byte : Nat) (p : BinaryPattern) : Bool :=
  Nat.land byte p.mask == p.value

/-- The cursor loop of `ViewFind::searchBinaryPattern` (lines 374-394): `i` is
the iterator position (relative address), `m` is `matchedBytes`.  On a match
the counter advances; on a full match the occurrence
`(i - (patternSize - 1), patternSize)` is recorded, the iterator is re-set to
the occurrence address and `++it` moves it one past the match start; on a
mismatch with progress the iterator steps back by `matchedBytes` and `++it`
nets a rewind of `matchedBytes - 1`.  Reading `pattern[matchedBytes]` out of
bounds (possible only for an empty pattern) is undefined behaviour in the
source and is modelled as `none`; exhausted fuel is also `none` and the
chosen fuel is proved sufficient below. -/
def bpLoop (data : List Nat) (pat : List BinaryPattern) :
    Nat → Nat → Nat → Option (List (Nat × Nat))
  | 0, _, _ => none
  | fuel + 1, i, m =>
    if i < data.length then
      match pat.get? m with
      | none => none
      | some p =>
        if bpMatches (data.getD i 0) p then
          if m + 1 = pat.length then
            Option.map (fun l => (i - (pat.length - 1), pat.length) :: l)
              (bpLoop data pat fuel (i - (pat.length - 1) + 1) 0)
          else bpLoop data pat fuel (i + 1) (m + 1)
        else if 0 < m then bpLoop data pat fuel (i - m + 1) 0
        else bpLoop data pat fuel (i + 1) 0
    else some []

/-- `ViewFind::searchBinaryPattern` over the region's bytes. -/
def searchBinaryPattern (data : List Nat) (pat : List BinaryPattern) :
    Option (List Occurrence) :=
  Option.map
    (List.map (fun p => (⟨p.1, p.2, DecodeType.Binary, Endianness.little⟩ : Occurrence)))
    (bpLoop data pat ((data.length + 1) * (pat.length + 1) + pat.length + 1) 0 0)

/-- Termination measure for `bpLoop`: the pair (distance of `i - m` from the
range end, remaining pattern positions), flattened. -/
def bpMeasure (n len i m : Nat) : Nat :=
  (n + 1 - (i - m)) * (len + 1) + (len - m)

theorem bpLoop_total (data : List Nat) (pat : List BinaryPattern) :
    ∀ (fuel i m : Nat), m < pat.length → m ≤ i →
      bpMeasure data.length pat.length i m < fuel →
      (bpLoop data pat fuel i m).isSome = true := by
  intro fuel
  induction fuel with
  | zero => intro i m hm hmi hf; exact absurd hf (Nat.not_lt_zero _)
  | succ fuel ih =>
    intro i m hm hmi hf
    simp only [bpLoop]
    by_cases hi : i < data.length
    · rw [if_pos hi]
      have hp : ∃ p, pat.get? m = some p := by
        rw [List.get?_eq_get hm]; exact ⟨_, rfl⟩
      obtain ⟨p, hp⟩ := hp
      rw [hp]
      dsimp only []
      by_cases hb : bpMatches (data.getD i 0) p = true
      · rw [if_pos hb]
        by_cases hfull : m + 1 = pat.length
        · rw [if_pos hfull]
          have hrec : bpMeasure data.length pat.length (i - (pat.length - 1) + 1) 0 < fuel := by
            have ha : i - (pat.length - 1) + 1 = (i - m) + 1 := by omega
            rw [ha]
            unfold bpMeasure at hf ⊢
            have h1 : data.length + 1 - ((i - m) + 1 - 0) = data.length - (i - m) := by omega
            have h2 : data.length + 1 - (i - m) = (data.length - (i - m)) + 1 := by omega
            rw [h1]
            rw [h2, Nat.succ_mul] at hf
            generalize (data.length - (i - m)) * (pat.length + 1) = X at hf ⊢
            omega
          rcases Option.isSome_iff_exists.mp
            (ih (i - (pat.length - 1) + 1) 0 (by omega) (Nat.zero_le _) hrec) with ⟨l, hl⟩
          rw [hl]
          rfl
        · rw [if_neg hfull]
          have hrec : bpMeasure data.length pat.length (i + 1) (m + 1) < fuel := by
            unfold bpMeasure at hf ⊢
            have h1 : i + 1 - (m + 1) = i - m := by omega
            rw [h1]
            generalize (data.length + 1 - (i - m)) * (pat.length + 1) = X at hf ⊢
            omega
          exact ih (i + 1) (m + 1) (by omega) (by omega) hrec
      · rw [if_neg hb]
        by_cases hm0 : 0 < m
        · rw [if_pos hm0]
          have hrec : bpMeasure data.length pat.length (i - m + 1) 0 < fuel := by
            unfold bpMeasure at hf ⊢
            have h1 : data.length + 1 - (i - m + 1 - 0) = data.length - (i - m) := by omega
            have h2 : data.length + 1 - (i - m) = (data.length - (i - m)) + 1 := by omega
            rw [h1]
            rw [h2, Nat.succ_mul] at hf
            generalize (data.length - (i - m)) * (pat.length + 1) = X at hf ⊢
            omega
          exact ih (i - m + 1) 0 (by omega) (Nat.zero_le _) hrec
        · rw [if_neg hm0]
          have hm0' : m = 0 := by omega
          subst hm0'
          have hrec : bpMeasure data.length pat.length (i + 1) 0 < fuel := by
            unfold bpMeasure at hf ⊢
            have h1 : data.length + 1 - (i + 1 - 0) = data.length - i := by omega
            have h2 : data.length + 1 - (i - 0) = (data.length - i) + 1 := by omega
            rw [h1]
            rw [h2, Nat.succ_mul] at hf
            generalize (data.length - i) * (pat.length + 1) = X at hf ⊢
            omega
          exact ih (i + 1) 0 (by omega) (Nat.zero_le _) hrec
    · rw [if_neg hi]
      rfl

/-- C3: `searchBinaryPattern` keeps a consecutive-match counter; on a mismatch
with partial progress the scan resumes at `i - matchedBytes + 1` (a net
rewind of `matchedBytes - 1`) with the counter reset; on a full match it
emits an occurrence of exactly the pattern length ending at the current
position and resumes one byte past the match start; over bytes
DE AD DE AD BE EF with pattern DE AD ?? EF it finds exactly one match, at
offset 2, spanning the 4 bytes DE AD BE EF. -/
theorem searchBinaryPattern_step_and_example :
    (∀ (data : List Nat) (pat : List BinaryPattern) (fuel i m : Nat) (p : BinaryPattern),
      i < data.length → pat.get? m = some p → bpMatches (data.getD i 0) p = false → 0 < m →
      bpLoop data pat (fuel + 1) i m = bpLoop data pat fuel (i - m + 1) 0) ∧
    (∀ (data : List Nat) (pat : List BinaryPattern) (fuel i m : Nat) (p : BinaryPattern),
      i < data.length → pat.get? m = some p → bpMatches (data.getD i 0) p = true →
      m + 1 = pat.length →
      bpLoop data pat (fuel + 1) i m =
        Option.map (fun l => (i - (pat.length - 1), pat.length) :: l)
          (bpLoop data pat fuel (i - (pat.length - 1) + 1) 0)) ∧
    searchBinaryPattern [0xDE, 0xAD, 0xDE, 0xAD, 0xBE, 0xEF]
        (parseBinaryPatternString ("DE AD ?? EF".data)) =
      some [⟨2, 4, DecodeType.Binary, Endianness.little⟩] ∧
    (([0xDE, 0xAD, 0xDE, 0xAD, 0xBE, 0xEF] : List Nat).drop 2).take 4 =
      [0xDE, 0xAD, 0xBE, 0xEF] := by
  refine ⟨?_, ?_, by decide, by decide⟩
  · intro data pat fuel i m p hi hp hb hm
    simp only [bpLoop]
    rw [if_pos hi, hp]
    dsimp only []
    rw [if_neg (by rw [hb]; exact Bool.noConfusion), if_pos hm]
  · intro data pat fuel i m p hi hp hb hfull
    simp only [bpLoop]
    rw [if_pos hi, hp]
    dsimp only []
    rw [if_pos hb, if_pos hfull]

/-- Witness for C3's theorem: the mismatch-rewind equation at a concrete
state (data 00 01, pattern two exact-zero bytes, position 1, one byte
already matched). -/
theorem searchBinaryPattern_step_witness :
    bpLoop [0, 1] [⟨255, 0⟩, ⟨255, 0⟩] 3 1 1 = bpLoop [0, 1] [⟨255, 0⟩, ⟨255, 0⟩] 2 1 0 :=
  searchBinaryPattern_step_and_example.1 [0, 1] [⟨255, 0⟩, ⟨255, 0⟩] 2 1 1 ⟨255, 0⟩
    (by decide) (by decide) (by decide) (by decide)

/-- C10: for a non-empty pattern the scan's `pattern[matchedBytes]` read is
always in bounds and the loop is total (`some` result with the wrapper's
fuel); for the empty pattern the very first read is out of bounds on any
non-empty range (`none`); and the UI gate `m_settingsValid` rejects exactly
the empty parsed pattern, so a search started through the gate never
performs the out-of-bounds read. -/
theorem searchBinaryPattern_nonempty_pattern_safety :
    (∀ (data : List Nat) (pat : List BinaryPattern), pat ≠ [] →
      (searchBinaryPattern data pat).isSome = true) ∧
    (∀ data : List Nat, data ≠ [] → searchBinaryPattern data [] = none) ∧
    (∀ input : List Char, binaryPatternSettingsValid input = true →
      parseBinaryPatternString input ≠ []) := by
  refine ⟨?_, ?_, ?_⟩
  · intro data pat hne
    have hlen : 0 < pat.length := List.length_pos.mpr hne
    have hmeas : bpMeasure data.length pat.length 0 0 <
        (data.length + 1) * (pat.length + 1) + pat.length + 1 := by
      unfold bpMeasure
      simp only [Nat.sub_zero]
      generalize (data.length + 1) * (pat.length + 1) = X
      omega
    rcases Option.isSome_iff_exists.mp
      (bpLoop_total data pat _ 0 0 hlen (Nat.zero_le 0) hmeas) with ⟨l, hl⟩
    unfold searchBinaryPattern
    rw [hl]
    rfl
  · intro data hne
    cases data with
    | nil => exact absurd rfl hne
    | cons b rest =>
      unfold searchBinaryPattern
      have hk : ((b :: rest).length + 1) * (([] : List BinaryPattern).length + 1) +
          ([] : List BinaryPattern).length + 1 = (rest.length + 2) + 1 := by
        simp only [List.length_cons, List.length_nil]
        omega
      rw [hk]
      simp [bpLoop]
  · intro input h
    simp only [binaryPatternSettingsValid, Bool.not_eq_true'] at h
    intro hcontra
    rw [hcontra] at h
    exact Bool.noConfusion h

/-- Witness for C10's theorem: safety at a concrete one-entry pattern. -/
theorem searchBinaryPattern_nonempty_pattern_safety_witness :
    (searchBinaryPattern [1] [⟨255, 1⟩]).isSome = true :=
  searchBinaryPattern_nonempty_pattern_safety.1 [1] [⟨255, 1⟩] (by decide)

/-- The regex tab's settings validation (view_find.cpp lines 674-682): the
pattern is compiled inside a try/catch (`compiles` abstracts whether
`std::regex(pattern)` succeeds — the regex engine itself is external to the
repository) and `m_settingsValid` is cleared on failure, then cleared again
for an empty pattern. -/
def regexSettingsValid (compiles : String → Bool) (pattern : String) : Bool :=
  compiles pattern && !pattern.isEmpty

/-- The search button is wrapped in `BeginDisabled(!m_settingsValid)`
(lines 770-778): `runSearch` executes only when the settings are valid and
the button is clicked. -/
def searchTaskStarts (settingsValid clicked : Bool) : Bool :=
  clicked && settingsValid

/-- How many bytes of the range a regex search scans: the whole range when a
search task starts, none otherwise (a task that never starts scans
nothing). -/
def regexBytesScanned (compiles : String → Bool) (pattern : String) (clicked : Bool)
    (rangeSize : Nat) : Nat :=
  if searchTaskStarts (regexSettingsValid compiles pattern) clicked then rangeSize else 0

/-- C5: an invalid (non-compiling) regex pattern fails fast: validation
happens in the UI frame, before any task exists, so no search task ever
starts and zero bytes of the range are scanned under an invalid regex — in
particular no fault can propagate across a task boundary and no scan is
interrupted mid-way. -/
theorem invalid_regex_never_starts_scan :
    ∀ (compiles : String → Bool) (pattern : String) (clicked : Bool) (rangeSize : Nat),
      compiles pattern = false →
      searchTaskStarts (regexSettingsValid compiles pattern) clicked = false ∧
      regexBytesScanned compiles pattern clicked rangeSize = 0 := by
  intro compiles pattern clicked rangeSize h
  have hvalid : regexSettingsValid compiles pattern = false := by
    simp [regexSettingsValid, h]
  constructor
  · simp [searchTaskStarts, hvalid]
  · simp [regexBytesScanned, searchTaskStarts, hvalid]

/-- Witness for C5's theorem: a concretely rejected pattern with the button
clicked over a non-empty range. -/
theorem invalid_regex_never_starts_scan_witness :
    searchTaskStarts (regexSettingsValid (fun _ => false) "(") true = false ∧
    regexBytesScanned (fun _ => false) "(" true 100 = 0 :=
  invalid_regex_never_starts_scan (fun _ => false) "(" true 100 rfl

/-- The `while (true)` loop of `ViewFind::searchSequence` again, threaded
with the cooperative-cancellation budget.  Modelled from the spec: the
`TaskManager` task object is outside the repository sources; per the spec's
concurrency contract, `task.update` polls the interrupt flag at least once
per progress unit and an interrupted task's body aborts at that poll,
storing nothing.  `budget` counts the `task.update` calls that may still
happen before the interrupt is observed; `none` is the aborted run. -/
def seqLoopT (hay pat : List Nat) : Nat → Nat → Nat → Option (List (Nat × Nat))
  | 0, _, _ => some []
  | fuel + 1, s, budget =>
    if budget = 0 then none
    else
      match findFirstMatchFrom hay pat (hay.length + 1) s with
      | none => some []
      | some i =>
        Option.map (fun l => (i, pat.length) :: l) (seqLoopT hay pat fuel (i + 1) (budget - 1))

/-- `searchSequence` run as a cancellable task: `none` when the interrupt
fired mid-scan. -/
def searchSequenceTask (hay pat : List Nat) (budget : Nat) : Option (List (Nat × Nat)) :=
  if pat.isEmpty then some [] else seqLoopT hay pat (hay.length + 1) 0 budget

/-- The per-provider result state written by `ViewFind::runSearch`'s task
body (view_find.cpp lines 488-516): the found list, the sorted working copy
and the interval list the occurrence tree is rebuilt from. -/
structure ProviderSearchState where
  foundOccurrences : List (Nat × Nat)
  sortedOccurrences : List (Nat × Nat)
  occurrenceTree : List (Nat × Nat × (Nat × Nat))
deriving DecidableEq

/-- The interval list built at lines 512-515, one `(start, end, occurrence)`
interval per occurrence.  Modelled from the spec: `Region`'s end is
`start + size` (exclusive). -/
def buildOccurrenceTree (rs : List (Nat × Nat)) : List (Nat × Nat × (Nat × Nat)) :=
  rs.map (fun o => (o.1, o.1 + o.2, o))

/-- `ViewFind::runSearch` for a sequence search, with the task outcome
applied to the provider's state.  Modelled from the spec: when the task is
interrupted mid-scan its body aborts at the next `update` call, so the
assignments to the found list, the sorted copy and the occurrence tree never
execute and the prior state stays. -/
def runSearchSequence (st : ProviderSearchState) (hay pat : List Nat) (budget : Nat) :
    ProviderSearchState :=
  match searchSequenceTask hay pat budget with
  | none => st
  | some r => ⟨r, r, buildOccurrenceTree r⟩

/-- C6: a search cancelled mid-scan stores nothing: the provider's previously
stored found list, working copy and occurrence tree are exactly what they
were before the cancelled search started. -/
theorem cancelled_search_discards_partial_results :
    ∀ (st : ProviderSearchState) (hay pat : List Nat) (budget : Nat),
      searchSequenceTask hay pat budget = none →
      (runSearchSequence st hay pat budget).foundOccurrences = st.foundOccurrences ∧
      (runSearchSequence st hay pat budget).sortedOccurrences = st.sortedOccurrences ∧
      (runSearchSequence st hay pat budget).occurrenceTree = st.occurrenceTree := by
  intro st hay pat budget h
  simp [runSearchSequence, h]

/-- Witness for C6's theorem: a search over "aaaa" for "aa" interrupted after
one progress update (it had already found the match at 0) leaves a prior
state with one stored occurrence untouched. -/
theorem cancelled_search_discards_partial_results_witness :
    (runSearchSequence ⟨[(9, 1)], [(9, 1)], [(9, 10, (9, 1))]⟩
        [97, 97, 97, 97] [97, 97] 1).foundOccurrences = [(9, 1)] ∧
    (runSearchSequence ⟨[(9, 1)], [(9, 1)], [(9, 10, (9, 1))]⟩
        [97, 97, 97, 97] [97, 97] 1).sortedOccurrences = [(9, 1)] ∧
    (runSearchSequence ⟨[(9, 1)], [(9, 1)], [(9, 10, (9, 1))]⟩
        [97, 97, 97, 97] [97, 97] 1).occurrenceTree = [(9, 10, (9, 1))] :=
  cancelled_search_discards_partial_results ⟨[(9, 1)], [(9, 1)], [(9, 10, (9, 1))]⟩
    [97, 97, 97, 97] [97, 97] 1 (by decide)

/-- Case-folded character (`std::tolower` over ASCII, as `hex::containsIgnoreCase`
uses). -/
def foldCase (c : Char) : Char := c.toLower

/-- Does the (needle) list start the (hay) list? -/
def listStartsWith : List Char → List Char → Bool
  | [], _ => true
  | _ :: _, [] => false
  | a :: as, b :: bs => a == b && listStartsWith as bs

/-- Does the hay list contain the needle list as a contiguous sublist? -/
def listContainsSub (needle : List Char) : List Char → Bool
  | [] => listStartsWith needle []
  | hay@(_ :: rest) => listStartsWith needle hay || listContainsSub needle rest

/-- Modelled from the spec: `hex::containsIgnoreCase` (libimhex, outside the
provided sources) — case-insensitive substring test. -/
def containsIgnoreCase (hay needle : List Char) : Bool :=
  listContainsSub (needle.map foldCase) (hay.map foldCase)

/-- The filter-edit handler of `ViewFind::drawContent` (view_find.cpp lines
802-818): if the new filter text is shorter than before, the working copy is
first restored from the full found list; then, unless the filter is empty,
every occurrence whose decoded value does not contain the filter
case-insensitively is removed from the working copy. -/
def filterEditStep {α : Type} (decode : α → List Char) (found working : List α)
    (prevLen : Nat) (newFilter : List Char) : List α :=
  let restored := if newFilter.length < prevLen then found else working
  if newFilter.isEmpty then restored
  else restored.filter (fun o => containsIgnoreCase (decode o) newFilter)

/-- C9: filter editing is monotone-narrowing with exact restore: a keystroke
that lengthens the filter filters the already-narrowed working copy (so it
only removes entries — the result is a sublist of the working copy), while a
keystroke that shortens it restores from the full found list first, so the
result is exactly the found occurrences whose decoded value contains the new
text case-insensitively (or the full found list when the text became
empty). -/
theorem filter_monotone_narrowing_with_restore :
    ∀ (α : Type) (decode : α → List Char) (found working : List α) (prevLen : Nat)
      (f : List Char),
      (prevLen < f.length →
        filterEditStep decode found working prevLen f =
          working.filter (fun o => containsIgnoreCase (decode o) f) ∧
        (filterEditStep decode found working prevLen f).Sublist working) ∧
      (f.length < prevLen → f ≠ [] →
        filterEditStep decode found working prevLen f =
          found.filter (fun o => containsIgnoreCase (decode o) f)) ∧
      (f.length < prevLen → f = [] →
        filterEditStep decode found working prevLen f = found) := by
  intro α decode found working prevLen f
  refine ⟨?_, ?_, ?_⟩
  · intro hlonger
    have hne : f.isEmpty = false := by
      cases f with
      | nil => simp at hlonger
      | cons a l => rfl
    have h1 : ¬ (f.length < prevLen) := by omega
    have heq : filterEditStep decode found working prevLen f =
        working.filter (fun o => containsIgnoreCase (decode o) f) := by
      simp [filterEditStep, h1, hne]
    exact ⟨heq, heq ▸ List.filter_sublist working⟩
  · intro hshorter hne
    have hne' : f.isEmpty = false := by
      cases f with
      | nil => exact absurd rfl hne
      | cons a l => rfl
    simp [filterEditStep, hshorter, hne']
  · intro hshorter hnil
    subst hnil
    simp only [List.length_nil] at hshorter
    simp [filterEditStep, hshorter]

/-- Witness for C9's theorem: shortening the filter from length 3 to "ab"
over a two-element result set restores from the found list and re-filters
it exactly. -/
theorem filter_monotone_narrowing_with_restore_witness :
    filterEditStep (fun n : Nat => if n = 0 then ['a', 'b'] else ['z']) [0, 1] [0] 3
        ['a', 'b'] =
      List.filter
        (fun o => containsIgnoreCase ((fun n : Nat => if n = 0 then ['a', 'b'] else ['z']) o)
          ['a', 'b']) [0, 1] :=
  ((filter_monotone_narrowing_with_restore Nat
      (fun n : Nat => if n = 0 then ['a', 'b'] else ['z']) [0, 1] [0] 3
      ['a', 'b']).2.1 (by decide) (by decide))
